import Mathlib

set_option maxHeartbeats 1000000

/-!
Shallow embedding of the CountingScanner runtime of `src/pire/extra/count.h`
(Pire, the Perl Incompatible Regular Expressions library), together with the
parts of its environment that the verification needs.  Machine integers are
modelled as `Nat` with explicit reduction modulo `2 ^ 32` (for `ui32` fields)
where overflow can occur; the `ui32` arrays `m_current` / `m_total` of
`CountingScanner::State` are modelled as index functions.
-/

/-- Modelled from the spec: `LoadedScanner::MAX_RE_COUNT` is declared in
`pire/scanners/loaded.h`, which is not under `src/`.  The spec (§3) says a
scanner tracks `k ≤ MAX_RE_COUNT` patterns, "a small compile-time constant,
typically 16"; the action word is a `ui32` split into a low increment half and
a high reset half, which forces `MAX_RE_COUNT = 16`. -/
def MAX_RE_COUNT : Nat := 16

/-- `CountingScanner::OPTIMAL_RE_COUNT` (src/pire/extra/count.h:105). -/
def OPTIMAL_RE_COUNT : Nat := 4

/-- Modelled from the spec: `LoadedScanner::IncrementMask` (pire/scanners/loaded.h,
not under `src/`).  Spec §3: the low half of the action word holds the
increment bits, one per tracked pattern. -/
def IncrementMask : Nat := 2 ^ MAX_RE_COUNT - 1

/-- Modelled from the spec: `LoadedScanner::ResetMask` (pire/scanners/loaded.h,
not under `src/`).  Spec §3: the high half of the action word holds the
reset bits. -/
def ResetMask : Nat := IncrementMask <<< MAX_RE_COUNT

/-- Enum `CountingScanner::FinalFlag` (src/pire/extra/count.h:100). -/
def FinalFlag : Nat := 0

/-- Enum `CountingScanner::DeadFlag` (src/pire/extra/count.h:101). -/
def DeadFlag : Nat := 1

/-- Enum `CountingScanner::Matched` (src/pire/extra/count.h:102). -/
def Matched : Nat := 2

/-- `CountingScanner::State` (src/pire/extra/count.h:107-133).  The `ui32`
arrays `m_current[MAX_RE_COUNT]` and `m_total[MAX_RE_COUNT]` are modelled as
index functions, `m_state` (an `InternalState`, i.e. `size_t`) and the
`size_t` field `m_updatedMask` as `Nat`. -/
structure CState where
  st : Nat
  current : Nat → Nat
  total : Nat → Nat
  updatedMask : Nat

/-- Pointwise update of an array modelled as an index function. -/
def setIdx (f : Nat → Nat) (i v : Nat) : Nat → Nat :=
  fun j => if j = i then v else f j

/-- `PerformIncrementer<I>::Do` (src/pire/extra/count.h:40-62): template
recursion over pattern indices; `mask & (1 << (I-1))` is bit `I-1` of the
mask, `++m_current[I-1]` increments a `ui32`. -/
def PerformIncrementerDo : Nat → CState → Nat → CState
  | 0, s, _ => s
  | i + 1, s, mask =>
    PerformIncrementerDo i
      (if mask.testBit i then
        { s with current := setIdx s.current i ((s.current i + 1) % 2 ^ 32) }
      else s) mask

/-- `PerformReseter<I>::Do` (src/pire/extra/count.h:64-87): guarded by bit
`MAX_RE_COUNT + (I-1)` of the mask and by `m_current[I-1]` being nonzero;
`ymax` is `max`. -/
def PerformReseterDo : Nat → CState → Nat → CState
  | 0, s, _ => s
  | i + 1, s, mask =>
    PerformReseterDo i
      (if mask.testBit (MAX_RE_COUNT + i) ∧ s.current i ≠ 0 then
        { s with
          total := setIdx s.total i (max (s.total i) (s.current i)),
          current := setIdx s.current i 0 }
      else s) mask

/-- `CountingScanner::PerformIncrement<ActualReCount>` (src/pire/extra/count.h:202-209):
`m_updatedMask |= ((size_t)mask) << MAX_RE_COUNT`. -/
def PerformIncrement (n : Nat) (s : CState) (mask : Nat) : CState :=
  if mask ≠ 0 then
    let s1 := PerformIncrementerDo n s mask
    { s1 with updatedMask := s1.updatedMask ||| (mask <<< MAX_RE_COUNT) }
  else s

/-- `CountingScanner::PerformReset<ActualReCount>` (src/pire/extra/count.h:211-219):
`mask &= m_updatedMask`, and `m_updatedMask &= (Action)~mask` where the `ui32`
complement of `mask` is `(2^32 - 1) ^^^ mask`. -/
def PerformReset (n : Nat) (s : CState) (mask0 : Nat) : CState :=
  let mask := mask0 &&& s.updatedMask
  if mask ≠ 0 then
    let s1 := PerformReseterDo n s mask
    { s1 with updatedMask := s1.updatedMask &&& ((2 ^ 32 - 1) ^^^ mask) }
  else s

/-- `CountingScanner::TakeActionImpl<ActualReCount>` (src/pire/extra/count.h:145-153). -/
def TakeActionImpl (n : Nat) (s : CState) (a : Nat) : CState :=
  let s1 := if a &&& IncrementMask ≠ 0 then PerformIncrement n s a else s
  if a &&& ResetMask ≠ 0 then PerformReset n s1 a else s1

/-- `CountingScanner::TakeAction` (src/pire/extra/count.h:155-159): the unroll
depth is hard-coded to `OPTIMAL_RE_COUNT`. -/
def TakeAction (s : CState) (a : Nat) : CState :=
  TakeActionImpl OPTIMAL_RE_COUNT s a

/-- `CountingScanner::Initialize` (src/pire/extra/count.h:137-143); the initial
`m_state` value `m.initial` comes from the scanner's table, abstracted as a
parameter. -/
def Initialize (initial : Nat) : CState :=
  { st := initial, current := fun _ => 0, total := fun _ => 0, updatedMask := 0 }

/-- `CountingScanner::State::Result` (src/pire/extra/count.h:109); `ymax` is `max`. -/
def Result (s : CState) (i : Nat) : Nat :=
  max (s.current i) (s.total i)

/-- `CountingScanner::CanStop` (src/pire/extra/count.h:161). -/
def CanStop (_ : CState) : Bool := false

/-- `CountingScanner::Final` (src/pire/extra/count.h:186). -/
def Final (_ : CState) : Bool := false

/-- `CountingScanner::Dead` (src/pire/extra/count.h:188). -/
def Dead (_ : CState) : Bool := false

/-- A transition-table entry (`Transition` of `LoadedScanner`): the
sign-extended shift and the action word read at `m_state + c`
(src/pire/extra/count.h:168-173).  The table itself lives in `LoadedScanner`,
which is not under `src/`, so it is abstracted as a function from the internal
state and the translated character to the entry. -/
structure Transition where
  shift : Int
  action : Nat

/-- `CountingScanner::Translate` (src/pire/extra/count.h:163-166); the
`m_letters` table is abstracted as a function. -/
def Translate (letters : Nat → Nat) (ch : Nat) : Nat := letters ch

/-- `CountingScanner::NextTranslated` (src/pire/extra/count.h:168-173):
`m_state += SignExtend(x.shift)` on a `size_t`, returning the action. -/
def NextTranslated (T : Nat → Nat → Transition) (s : CState) (c : Nat) : CState × Nat :=
  let x := T s.st c
  ({ s with st := (((s.st : Int) + x.shift) % (2 ^ 64 : Int)).toNat }, x.action)

/-- `CountingScanner::Next(State&, Char)` (src/pire/extra/count.h:175-178). -/
def Next (T : Nat → Nat → Transition) (letters : Nat → Nat) (s : CState) (c : Nat) :
    CState × Nat :=
  NextTranslated T s (Translate letters c)

/-- `CountingScanner::Next(const State&, State&, Char)` (src/pire/extra/count.h:180-184):
copies the first state into the second and steps the copy. -/
def NextCopy (T : Nat → Nat → Transition) (letters : Nat → Nat) (current : CState)
    (c : Nat) : CState × Nat :=
  Next T letters current c

/-- `CountingScanner::RemapAction` (src/pire/extra/count.h:227-235). -/
def RemapAction (action : Nat) : Nat :=
  if action = (Matched ||| DeadFlag) then 1
  else if action = DeadFlag then 1 <<< MAX_RE_COUNT
  else 0

/-- Folding `TakeAction` over a sequence of delivered action words, starting
from a given runtime state. -/
def applyActions (s : CState) (l : List Nat) : CState :=
  l.foldl TakeAction s

/-- Specification-side variant of `PerformReset` that omits the
`mask &= m_updatedMask` gate and applies every reset bit of the action;
used to state the refinement claim about the gate. -/
def PerformResetUngated (n : Nat) (s : CState) (mask : Nat) : CState :=
  if mask ≠ 0 then
    let s1 := PerformReseterDo n s mask
    { s1 with updatedMask := s1.updatedMask &&& ((2 ^ 32 - 1) ^^^ mask) }
  else s

/-- `TakeAction` with the ungated reset variant. -/
def TakeActionUngated (s : CState) (a : Nat) : CState :=
  let s1 := if a &&& IncrementMask ≠ 0 then PerformIncrement OPTIMAL_RE_COUNT s a else s
  if a &&& ResetMask ≠ 0 then PerformResetUngated OPTIMAL_RE_COUNT s1 a else s1

/-- Folding `TakeActionUngated` over a sequence of action words. -/
def applyActionsUngated (s : CState) (l : List Nat) : CState :=
  l.foldl TakeActionUngated s

/-- Modelled from the spec: `CountingScanner::Glue` is only declared in
`src/pire/extra/count.h:135`; its definition is not under `src/`.  Spec §4.F,
§4.I, §7: the glue worklist product-constructs the two scanners and stops with
an empty result if the product state count exceeds `maxSize` (`0` meaning "no
limit"); the caller receives a sentinel-empty scanner rather than an
exception (the caller's `Empty()` test, cf. `src/tools/bench/bench.cpp:83`).
A scanner is modelled by its state count; a default-constructed (sentinel)
scanner has none. -/
structure GScanner where
  states : Nat

/-- The caller's sentinel test `Empty()` (used at src/tools/bench/bench.cpp:83). -/
def GScanner.Empty (s : GScanner) : Bool := s.states == 0

/-- Modelled from the spec: the number of product states the glue worklist
constructs for two scanners. -/
def glueProductStates (a b : GScanner) : Nat := a.states * b.states

/-- Modelled from the spec: `CountingScanner::Glue(a, b, maxSize)` as a total
function — it never raises; on budget overrun it returns the sentinel-empty
scanner. -/
def Glue (a b : GScanner) (maxSize : Nat) : GScanner :=
  if maxSize ≠ 0 ∧ maxSize < glueProductStates a b then { states := 0 }
  else { states := glueProductStates a b }

/-- Gate soundness invariant: a nonzero counter implies its reset-gate bit
(bit `MAX_RE_COUNT + i` of `m_updatedMask`) is set. -/
def GateSound (s : CState) : Prop :=
  ∀ i, i < OPTIMAL_RE_COUNT → s.current i ≠ 0 →
    s.updatedMask.testBit (MAX_RE_COUNT + i) = true

/-- Counters outside the unrolled range are zero. -/
def HighZero (s : CState) : Prop :=
  ∀ i, OPTIMAL_RE_COUNT ≤ i → s.current i = 0

/-- The exact updatedMask bookkeeping invariant of the claim: the reset-gate
bit for pattern `i` is set iff `current[i]` is nonzero. -/
def MaskInv (s : CState) : Prop :=
  ∀ i, i < OPTIMAL_RE_COUNT →
    (s.updatedMask.testBit (MAX_RE_COUNT + i) = true ↔ s.current i ≠ 0)

/-- No counter in the unrolled range is about to overflow its `ui32`. -/
def NoWrap (s : CState) : Prop :=
  ∀ i, i < OPTIMAL_RE_COUNT → s.current i < 2 ^ 32 - 1

instance (s : CState) : Decidable (MaskInv s) := by
  unfold MaskInv; infer_instance

instance (s : CState) : Decidable (GateSound s) := by
  unfold GateSound; infer_instance

instance (s : CState) : Decidable (NoWrap s) := by
  unfold NoWrap; infer_instance


theorem setIdx_apply (f : Nat → Nat) (i v j : Nat) :
    setIdx f i v j = if j = i then v else f j := rfl

theorem ne_zero_of_testBit {x k : Nat} (h : x.testBit k = true) : x ≠ 0 := by
  intro h0
  subst h0
  simp [Nat.zero_testBit] at h

theorem ne_zero_of_land_ne_zero {a m : Nat} (h : a &&& m ≠ 0) : a ≠ 0 := by
  intro h0
  subst h0
  simp [Nat.zero_and] at h

theorem land_IncrementMask_ne_zero {a i : Nat} (hi : i < MAX_RE_COUNT)
    (hb : a.testBit i = true) : a &&& IncrementMask ≠ 0 := by
  apply ne_zero_of_testBit (k := i)
  simp [IncrementMask, Nat.testBit_and, hb, Nat.testBit_two_pow_sub_one, hi]

theorem land_ResetMask_ne_zero {a i : Nat} (hi : i < MAX_RE_COUNT)
    (hb : a.testBit (MAX_RE_COUNT + i) = true) : a &&& ResetMask ≠ 0 := by
  apply ne_zero_of_testBit (k := MAX_RE_COUNT + i)
  simp [ResetMask, IncrementMask, Nat.testBit_and, hb, Nat.testBit_shiftLeft,
    Nat.testBit_two_pow_sub_one, hi]

theorem testBit_eq_false_of_IncrementMask_eq_zero {a i : Nat} (hi : i < MAX_RE_COUNT)
    (h : a &&& IncrementMask = 0) : a.testBit i = false := by
  by_contra hb
  exact land_IncrementMask_ne_zero hi (eq_true_of_ne_false hb) h

theorem testBit_eq_false_of_ResetMask_eq_zero {a i : Nat} (hi : i < MAX_RE_COUNT)
    (h : a &&& ResetMask = 0) : a.testBit (MAX_RE_COUNT + i) = false := by
  by_contra hb
  exact land_ResetMask_ne_zero hi (eq_true_of_ne_false hb) h

theorem incDo_st (k mask : Nat) : ∀ s : CState,
    (PerformIncrementerDo k s mask).st = s.st := by
  induction k with
  | zero => intro s; rfl
  | succ k ih =>
    intro s
    rw [PerformIncrementerDo, ih]
    by_cases hb : mask.testBit k <;> simp [hb]

theorem incDo_total (k mask : Nat) : ∀ s : CState,
    (PerformIncrementerDo k s mask).total = s.total := by
  induction k with
  | zero => intro s; rfl
  | succ k ih =>
    intro s
    rw [PerformIncrementerDo, ih]
    by_cases hb : mask.testBit k <;> simp [hb]

theorem incDo_updatedMask (k mask : Nat) : ∀ s : CState,
    (PerformIncrementerDo k s mask).updatedMask = s.updatedMask := by
  induction k with
  | zero => intro s; rfl
  | succ k ih =>
    intro s
    rw [PerformIncrementerDo, ih]
    by_cases hb : mask.testBit k <;> simp [hb]

theorem incDo_current (k mask i : Nat) : ∀ s : CState,
    (PerformIncrementerDo k s mask).current i =
      if i < k ∧ mask.testBit i then (s.current i + 1) % 2 ^ 32 else s.current i := by
  induction k with
  | zero =>
    intro s
    simp [PerformIncrementerDo]
  | succ k ih =>
    intro s
    rw [PerformIncrementerDo, ih]
    rcases Nat.lt_trichotomy i k with hik | hik | hik
    · have h1 : i < k + 1 := by omega
      have h2 : i ≠ k := by omega
      by_cases hb : mask.testBit k <;>
        by_cases hbi : mask.testBit i <;>
          simp [hb, hbi, hik, h1, setIdx_apply, h2]
    · subst hik
      have h1 : ¬ i < i := by omega
      have h2 : i < i + 1 := by omega
      by_cases hb : mask.testBit i <;> simp [hb, h1, h2, setIdx_apply]
    · have h1 : ¬ i < k := by omega
      have h2 : ¬ i < k + 1 := by omega
      have h3 : i ≠ k := by omega
      by_cases hb : mask.testBit k <;> simp [hb, h1, h2, h3, setIdx_apply]

theorem resDo_st (k mask : Nat) : ∀ s : CState,
    (PerformReseterDo k s mask).st = s.st := by
  induction k with
  | zero => intro s; rfl
  | succ k ih =>
    intro s
    rw [PerformReseterDo, ih]
    by_cases hb : mask.testBit (MAX_RE_COUNT + k) ∧ s.current k ≠ 0 <;> simp [hb]

theorem resDo_updatedMask (k mask : Nat) : ∀ s : CState,
    (PerformReseterDo k s mask).updatedMask = s.updatedMask := by
  induction k with
  | zero => intro s; rfl
  | succ k ih =>
    intro s
    rw [PerformReseterDo, ih]
    by_cases hb : mask.testBit (MAX_RE_COUNT + k) ∧ s.current k ≠ 0 <;> simp [hb]

theorem resDo_current (k mask i : Nat) : ∀ s : CState,
    (PerformReseterDo k s mask).current i =
      if i < k ∧ mask.testBit (MAX_RE_COUNT + i) ∧ s.current i ≠ 0 then 0
      else s.current i := by
  induction k with
  | zero =>
    intro s
    simp [PerformReseterDo]
  | succ k ih =>
    intro s
    rw [PerformReseterDo, ih]
    rcases Nat.lt_trichotomy i k with hik | hik | hik
    · have h1 : i < k + 1 := by omega
      have h2 : i ≠ k := by omega
      by_cases hb : mask.testBit (MAX_RE_COUNT + k) ∧ s.current k ≠ 0 <;>
        by_cases hbi : mask.testBit (MAX_RE_COUNT + i) <;>
          simp [hb, hbi, hik, h1, setIdx_apply, h2]
    · subst hik
      have h1 : ¬ i < i := by omega
      have h2 : i < i + 1 := by omega
      by_cases hb : mask.testBit (MAX_RE_COUNT + i) ∧ s.current i ≠ 0 <;>
        simp [hb, h1, h2, setIdx_apply]
    · have h1 : ¬ i < k := by omega
      have h2 : ¬ i < k + 1 := by omega
      have h3 : i ≠ k := by omega
      by_cases hb : mask.testBit (MAX_RE_COUNT + k) ∧ s.current k ≠ 0 <;>
        simp [hb, h1, h2, h3, setIdx_apply]

theorem resDo_total (k mask i : Nat) : ∀ s : CState,
    (PerformReseterDo k s mask).total i =
      if i < k ∧ mask.testBit (MAX_RE_COUNT + i) ∧ s.current i ≠ 0 then
        max (s.total i) (s.current i)
      else s.total i := by
  induction k with
  | zero =>
    intro s
    simp [PerformReseterDo]
  | succ k ih =>
    intro s
    rw [PerformReseterDo, ih]
    rcases Nat.lt_trichotomy i k with hik | hik | hik
    · have h1 : i < k + 1 := by omega
      have h2 : i ≠ k := by omega
      by_cases hb : mask.testBit (MAX_RE_COUNT + k) ∧ s.current k ≠ 0 <;>
        by_cases hbi : mask.testBit (MAX_RE_COUNT + i) <;>
          simp [hb, hbi, hik, h1, setIdx_apply, h2]
    · subst hik
      have h1 : ¬ i < i := by omega
      have h2 : i < i + 1 := by omega
      by_cases hb : mask.testBit (MAX_RE_COUNT + i) ∧ s.current i ≠ 0 <;>
        simp [hb, h1, h2, setIdx_apply]
    · have h1 : ¬ i < k := by omega
      have h2 : ¬ i < k + 1 := by omega
      have h3 : i ≠ k := by omega
      by_cases hb : mask.testBit (MAX_RE_COUNT + k) ∧ s.current k ≠ 0 <;>
        simp [hb, h1, h2, h3, setIdx_apply]

theorem opt_lt_max {i : Nat} (h : i < OPTIMAL_RE_COUNT) : i < MAX_RE_COUNT := by
  simp [OPTIMAL_RE_COUNT, MAX_RE_COUNT] at *
  omega

/-- The increment phase of `TakeActionImpl` at the unroll depth used by
`TakeAction`. -/
def incPhase (s : CState) (a : Nat) : CState :=
  if a &&& IncrementMask ≠ 0 then PerformIncrement OPTIMAL_RE_COUNT s a else s

/-- `m_updatedMask` right after the increment phase. -/
def postIncMask (s : CState) (a : Nat) : Nat :=
  if a &&& IncrementMask ≠ 0 then s.updatedMask ||| (a <<< MAX_RE_COUNT)
  else s.updatedMask

theorem takeAction_eq (s : CState) (a : Nat) :
    TakeAction s a =
      if a &&& ResetMask ≠ 0 then PerformReset OPTIMAL_RE_COUNT (incPhase s a) a
      else incPhase s a := rfl

theorem incPhase_st (s : CState) (a : Nat) : (incPhase s a).st = s.st := by
  by_cases hInc : a &&& IncrementMask ≠ 0
  · have ha : ¬ a = 0 := ne_zero_of_land_ne_zero hInc
    simp [incPhase, hInc, PerformIncrement, ha, incDo_st]
  · simp [incPhase, hInc]

theorem incPhase_total (s : CState) (a : Nat) : (incPhase s a).total = s.total := by
  by_cases hInc : a &&& IncrementMask ≠ 0
  · have ha : ¬ a = 0 := ne_zero_of_land_ne_zero hInc
    simp [incPhase, hInc, PerformIncrement, ha, incDo_total]
  · simp [incPhase, hInc]

theorem incPhase_updatedMask (s : CState) (a : Nat) :
    (incPhase s a).updatedMask = postIncMask s a := by
  by_cases hInc : a &&& IncrementMask ≠ 0
  · have ha : ¬ a = 0 := ne_zero_of_land_ne_zero hInc
    simp [incPhase, postIncMask, hInc, PerformIncrement, ha, incDo_updatedMask]
  · simp [incPhase, postIncMask, hInc]

theorem incPhase_current (s : CState) (a i : Nat) (hi : i < OPTIMAL_RE_COUNT) :
    (incPhase s a).current i =
      if a.testBit i then (s.current i + 1) % 2 ^ 32 else s.current i := by
  by_cases hInc : a &&& IncrementMask ≠ 0
  · have ha : ¬ a = 0 := ne_zero_of_land_ne_zero hInc
    simp [incPhase, hInc, PerformIncrement, ha, incDo_current, hi]
  · have hb : a.testBit i = false :=
      testBit_eq_false_of_IncrementMask_eq_zero (opt_lt_max hi) (by simpa using hInc)
    simp [incPhase, hInc, hb]

theorem incPhase_current_high (s : CState) (a i : Nat) (hi : OPTIMAL_RE_COUNT ≤ i) :
    (incPhase s a).current i = s.current i := by
  have h1 : ¬ i < OPTIMAL_RE_COUNT := by omega
  by_cases hInc : a &&& IncrementMask ≠ 0
  · have ha : ¬ a = 0 := ne_zero_of_land_ne_zero hInc
    simp [incPhase, hInc, PerformIncrement, ha, incDo_current, h1]
  · simp [incPhase, hInc]

theorem performReset_st (t : CState) (a : Nat) :
    (PerformReset OPTIMAL_RE_COUNT t a).st = t.st := by
  by_cases hm : a &&& t.updatedMask ≠ 0 <;> simp [PerformReset, hm, resDo_st]

theorem performReset_current (t : CState) (a i : Nat) (hi : i < OPTIMAL_RE_COUNT) :
    (PerformReset OPTIMAL_RE_COUNT t a).current i =
      if a.testBit (MAX_RE_COUNT + i) ∧ t.updatedMask.testBit (MAX_RE_COUNT + i)
          ∧ t.current i ≠ 0 then 0
      else t.current i := by
  by_cases hm : a &&& t.updatedMask ≠ 0
  · simp [PerformReset, hm, resDo_current, hi, Nat.testBit_and, Bool.and_eq_true,
      and_assoc]
  · have hnot : ¬ (a.testBit (MAX_RE_COUNT + i) = true
        ∧ t.updatedMask.testBit (MAX_RE_COUNT + i) = true ∧ t.current i ≠ 0) := by
      rintro ⟨h1, h2, _⟩
      exact hm (ne_zero_of_testBit (k := MAX_RE_COUNT + i)
        (by simp [Nat.testBit_and, h1, h2]))
    simp [PerformReset, hm]
    simp [hnot]

theorem performReset_total (t : CState) (a i : Nat) (hi : i < OPTIMAL_RE_COUNT) :
    (PerformReset OPTIMAL_RE_COUNT t a).total i =
      if a.testBit (MAX_RE_COUNT + i) ∧ t.updatedMask.testBit (MAX_RE_COUNT + i)
          ∧ t.current i ≠ 0 then max (t.total i) (t.current i)
      else t.total i := by
  by_cases hm : a &&& t.updatedMask ≠ 0
  · simp [PerformReset, hm, resDo_total, hi, Nat.testBit_and, Bool.and_eq_true,
      and_assoc]
  · have hnot : ¬ (a.testBit (MAX_RE_COUNT + i) = true
        ∧ t.updatedMask.testBit (MAX_RE_COUNT + i) = true ∧ t.current i ≠ 0) := by
      rintro ⟨h1, h2, _⟩
      exact hm (ne_zero_of_testBit (k := MAX_RE_COUNT + i)
        (by simp [Nat.testBit_and, h1, h2]))
    simp [PerformReset, hm]
    simp [hnot]

theorem performReset_current_high (t : CState) (a i : Nat)
    (hi : OPTIMAL_RE_COUNT ≤ i) :
    (PerformReset OPTIMAL_RE_COUNT t a).current i = t.current i := by
  have h1 : ¬ i < OPTIMAL_RE_COUNT := by omega
  by_cases hm : a &&& t.updatedMask ≠ 0 <;>
    simp [PerformReset, hm, resDo_current, h1]

theorem performReset_total_high (t : CState) (a i : Nat)
    (hi : OPTIMAL_RE_COUNT ≤ i) :
    (PerformReset OPTIMAL_RE_COUNT t a).total i = t.total i := by
  have h1 : ¬ i < OPTIMAL_RE_COUNT := by omega
  by_cases hm : a &&& t.updatedMask ≠ 0 <;>
    simp [PerformReset, hm, resDo_total, h1]

theorem performReset_updatedMask_testBit (t : CState) (a k : Nat) (hk : k < 32) :
    (PerformReset OPTIMAL_RE_COUNT t a).updatedMask.testBit k =
      (t.updatedMask.testBit k && !(a.testBit k)) := by
  by_cases hm : a &&& t.updatedMask ≠ 0
  · simp only [PerformReset, hm, if_true, ne_eq, not_false_iff, if_pos,
      resDo_updatedMask]
    rw [Nat.testBit_and, Nat.testBit_xor, Nat.testBit_two_pow_sub_one,
      Nat.testBit_and]
    have : decide (k < 32) = true := by simp [hk]
    rw [this]
    cases ht : t.updatedMask.testBit k <;> cases ha : a.testBit k <;> simp
  · have h0 : a &&& t.updatedMask = 0 := by simpa using hm
    have hb : (a &&& t.updatedMask).testBit k = false := by simp [h0]
    rw [Nat.testBit_and] at hb
    simp only [PerformReset, hm, if_neg]
    simp only [h0, ne_eq, not_true_eq_false, if_false, ite_self]
    cases ht : t.updatedMask.testBit k <;> cases ha : a.testBit k <;>
      simp_all

theorem postIncMask_testBit (s : CState) (a i : Nat) (hi : i < MAX_RE_COUNT) :
    (postIncMask s a).testBit (MAX_RE_COUNT + i) =
      (s.updatedMask.testBit (MAX_RE_COUNT + i) || a.testBit i) := by
  by_cases hInc : a &&& IncrementMask ≠ 0
  · simp only [postIncMask]
    rw [if_pos hInc, Nat.testBit_or, Nat.testBit_shiftLeft]
    have h2 : MAX_RE_COUNT + i - MAX_RE_COUNT = i := by omega
    rw [h2]
    simp
  · have hb : a.testBit i = false :=
      testBit_eq_false_of_IncrementMask_eq_zero hi (by simpa using hInc)
    simp [postIncMask, hInc, hb]

theorem takeAction_st (s : CState) (a : Nat) : (TakeAction s a).st = s.st := by
  rw [takeAction_eq]
  by_cases hr : a &&& ResetMask ≠ 0 <;> simp [hr, performReset_st, incPhase_st]

theorem takeAction_current (s : CState) (a i : Nat) (hi : i < OPTIMAL_RE_COUNT) :
    (TakeAction s a).current i =
      if a.testBit (MAX_RE_COUNT + i) ∧ (postIncMask s a).testBit (MAX_RE_COUNT + i)
          ∧ (if a.testBit i then (s.current i + 1) % 2 ^ 32 else s.current i) ≠ 0
      then 0
      else if a.testBit i then (s.current i + 1) % 2 ^ 32 else s.current i := by
  rw [takeAction_eq]
  by_cases hr : a &&& ResetMask ≠ 0
  · rw [if_pos hr, performReset_current _ _ _ hi, incPhase_current _ _ _ hi,
      incPhase_updatedMask]
  · have hb : a.testBit (MAX_RE_COUNT + i) = false :=
      testBit_eq_false_of_ResetMask_eq_zero (opt_lt_max hi) (by simpa using hr)
    rw [if_neg hr, incPhase_current _ _ _ hi]
    simp [hb]

theorem takeAction_total (s : CState) (a i : Nat) (hi : i < OPTIMAL_RE_COUNT) :
    (TakeAction s a).total i =
      if a.testBit (MAX_RE_COUNT + i) ∧ (postIncMask s a).testBit (MAX_RE_COUNT + i)
          ∧ (if a.testBit i then (s.current i + 1) % 2 ^ 32 else s.current i) ≠ 0
      then max (s.total i)
        (if a.testBit i then (s.current i + 1) % 2 ^ 32 else s.current i)
      else s.total i := by
  rw [takeAction_eq]
  by_cases hr : a &&& ResetMask ≠ 0
  · rw [if_pos hr, performReset_total _ _ _ hi, incPhase_current _ _ _ hi,
      incPhase_updatedMask, incPhase_total]
  · have hb : a.testBit (MAX_RE_COUNT + i) = false :=
      testBit_eq_false_of_ResetMask_eq_zero (opt_lt_max hi) (by simpa using hr)
    rw [if_neg hr, incPhase_total]
    simp [hb]

theorem takeAction_current_high (s : CState) (a i : Nat)
    (hi : OPTIMAL_RE_COUNT ≤ i) : (TakeAction s a).current i = s.current i := by
  rw [takeAction_eq]
  by_cases hr : a &&& ResetMask ≠ 0
  · rw [if_pos hr, performReset_current_high _ _ _ hi, incPhase_current_high _ _ _ hi]
  · rw [if_neg hr, incPhase_current_high _ _ _ hi]

theorem takeAction_total_high (s : CState) (a i : Nat)
    (hi : OPTIMAL_RE_COUNT ≤ i) : (TakeAction s a).total i = s.total i := by
  rw [takeAction_eq]
  by_cases hr : a &&& ResetMask ≠ 0
  · rw [if_pos hr, performReset_total_high _ _ _ hi, incPhase_total]
  · rw [if_neg hr, incPhase_total]

theorem takeAction_updatedMask_testBit (s : CState) (a k : Nat) (hk : k < 32) :
    (TakeAction s a).updatedMask.testBit k =
      ((postIncMask s a).testBit k
        && !(a.testBit k && decide (a &&& ResetMask ≠ 0))) := by
  rw [takeAction_eq]
  by_cases hr : a &&& ResetMask ≠ 0
  · rw [if_pos hr, performReset_updatedMask_testBit _ _ _ hk, incPhase_updatedMask]
    simp [hr]
  · rw [if_neg hr, incPhase_updatedMask]
    simp [hr]

theorem max_plus_lt_32 {i : Nat} (hi : i < MAX_RE_COUNT) : MAX_RE_COUNT + i < 32 := by
  simp only [MAX_RE_COUNT] at hi ⊢
  omega

theorem gateSound_init (st0 : Nat) : GateSound (Initialize st0) := by
  intro i hi hc
  simp [Initialize] at hc

theorem gateSound_step (s : CState) (a : Nat) (h : GateSound s) :
    GateSound (TakeAction s a) := by
  intro i hi hc
  have hmax := opt_lt_max hi
  have hk := max_plus_lt_32 hmax
  rw [takeAction_current _ _ _ hi, postIncMask_testBit _ _ _ hmax] at hc
  rw [takeAction_updatedMask_testBit _ _ _ hk, postIncMask_testBit _ _ _ hmax]
  have hu := h i hi
  by_cases hr : a.testBit (MAX_RE_COUNT + i) = true
  · exfalso
    by_cases hc1 : (if a.testBit i then (s.current i + 1) % 2 ^ 32
        else s.current i) = 0
    · rw [if_neg (fun hcon => hcon.2.2 hc1), hc1] at hc
      exact hc rfl
    · have hor : (s.updatedMask.testBit (MAX_RE_COUNT + i) || a.testBit i) = true := by
        by_cases hx : a.testBit i = true
        · simp [hx]
        · have hx0 : a.testBit i = false := by simpa using hx
          rw [if_neg (by simp [hx0])] at hc1
          simp [hu hc1]
      rw [if_pos ⟨hr, hor, hc1⟩] at hc
      exact hc rfl
  · have hr0 : a.testBit (MAX_RE_COUNT + i) = false := by simpa using hr
    rw [if_neg (fun hcon => by simp [hr0] at hcon)] at hc
    rw [hr0]
    by_cases hx : a.testBit i = true
    · simp [hx]
    · have hx0 : a.testBit i = false := by simpa using hx
      rw [if_neg (by simp [hx0])] at hc
      simp [hu hc]

theorem highZero_init (st0 : Nat) : HighZero (Initialize st0) := by
  intro i hi
  simp [Initialize]

theorem highZero_step (s : CState) (a : Nat) (h : HighZero s) :
    HighZero (TakeAction s a) := by
  intro i hi
  rw [takeAction_current_high _ _ _ hi]
  exact h i hi

theorem gateSound_applyActions (l : List Nat) :
    ∀ s : CState, GateSound s → GateSound (applyActions s l) := by
  induction l with
  | nil => intro s h; exact h
  | cons a l ih =>
    intro s h
    exact ih _ (gateSound_step s a h)

theorem highZero_applyActions (l : List Nat) :
    ∀ s : CState, HighZero s → HighZero (applyActions s l) := by
  induction l with
  | nil => intro s h; exact h
  | cons a l ih =>
    intro s h
    exact ih _ (highZero_step s a h)

theorem maskInv_init (st0 : Nat) : MaskInv (Initialize st0) := by
  intro i hi
  simp [Initialize]

theorem maskInv_step (s : CState) (a : Nat) (h : MaskInv s) (hw : NoWrap s) :
    MaskInv (TakeAction s a) := by
  intro i hi
  have hmax := opt_lt_max hi
  have hk := max_plus_lt_32 hmax
  have hiff := h i hi
  have hwi := hw i hi
  have hmod : (s.current i + 1) % 2 ^ 32 = s.current i + 1 :=
    Nat.mod_eq_of_lt (by omega)
  rw [takeAction_current _ _ _ hi, postIncMask_testBit _ _ _ hmax,
    takeAction_updatedMask_testBit _ _ _ hk, postIncMask_testBit _ _ _ hmax, hmod]
  by_cases hr : a.testBit (MAX_RE_COUNT + i) = true
  · have hg : decide (a &&& ResetMask ≠ 0) = true := by
      simpa using land_ResetMask_ne_zero hmax hr
    cases hx : a.testBit i <;>
      cases hum : s.updatedMask.testBit (MAX_RE_COUNT + i) <;>
        simp_all
  · have hr0 : a.testBit (MAX_RE_COUNT + i) = false := by simpa using hr
    cases hx : a.testBit i <;>
      cases hum : s.updatedMask.testBit (MAX_RE_COUNT + i) <;>
        simp_all

theorem result_mono_step (s : CState) (a i : Nat)
    (hw : s.current i < 2 ^ 32 - 1) :
    Result s i ≤ Result (TakeAction s a) i := by
  by_cases hi : i < OPTIMAL_RE_COUNT
  · have hmod : (s.current i + 1) % 2 ^ 32 = s.current i + 1 :=
      Nat.mod_eq_of_lt (by omega)
    rw [Result, Result, takeAction_current _ _ _ hi, takeAction_total _ _ _ hi, hmod]
    split_ifs <;> omega
  · have hge : OPTIMAL_RE_COUNT ≤ i := by omega
    rw [Result, Result, takeAction_current_high _ _ _ hge,
      takeAction_total_high _ _ _ hge]

theorem result_next_eq (T : Nat → Nat → Transition) (letters : Nat → Nat)
    (s : CState) (c i : Nat) : Result (Next T letters s c).1 i = Result s i := rfl

theorem takeAction_one_current (s : CState) :
    (TakeAction s 1).current 0 = (s.current 0 + 1) % 2 ^ 32
    ∧ (TakeAction s 1).total 0 = s.total 0 := by
  have h0 : (0 : Nat) < OPTIMAL_RE_COUNT := by simp [OPTIMAL_RE_COUNT]
  have hb0 : (1 : Nat).testBit 0 = true := by decide
  have hbr : (1 : Nat).testBit (MAX_RE_COUNT + 0) = false := by decide
  rw [takeAction_current _ _ _ h0, takeAction_total _ _ _ h0, hb0, hbr]
  simp

theorem applyActions_replicate_one (n : Nat) : ∀ s : CState, s.current 0 < 2 ^ 32 →
    (applyActions s (List.replicate n 1)).current 0 = (s.current 0 + n) % 2 ^ 32
    ∧ (applyActions s (List.replicate n 1)).total 0 = s.total 0 := by
  induction n with
  | zero =>
    intro s hlt
    refine ⟨?_, rfl⟩
    show s.current 0 = (s.current 0 + 0) % 2 ^ 32
    omega
  | succ n ih =>
    intro s hlt
    have hstep := takeAction_one_current s
    have hrep : List.replicate (n + 1) 1 = 1 :: List.replicate n 1 :=
      List.replicate_succ 1 n
    have hfold : applyActions s (List.replicate (n + 1) 1) =
        applyActions (TakeAction s 1) (List.replicate n 1) := by
      rw [hrep]
      rfl
    have hlt2 : (TakeAction s 1).current 0 < 2 ^ 32 := by
      rw [hstep.1]
      omega
    obtain ⟨ih1, ih2⟩ := ih (TakeAction s 1) hlt2
    rw [hfold, ih1, ih2, hstep.1, hstep.2]
    constructor
    · omega
    · rfl

theorem takeActionUngated_eq (s : CState) (a : Nat) :
    TakeActionUngated s a =
      if a &&& ResetMask ≠ 0 then
        PerformResetUngated OPTIMAL_RE_COUNT (incPhase s a) a
      else incPhase s a := rfl

theorem performResetUngated_st (t : CState) (a : Nat) :
    (PerformResetUngated OPTIMAL_RE_COUNT t a).st = t.st := by
  by_cases ha : a ≠ 0 <;> simp [PerformResetUngated, ha, resDo_st]

theorem performResetUngated_current (t : CState) (a i : Nat)
    (hi : i < OPTIMAL_RE_COUNT) :
    (PerformResetUngated OPTIMAL_RE_COUNT t a).current i =
      if a.testBit (MAX_RE_COUNT + i) ∧ t.current i ≠ 0 then 0 else t.current i := by
  by_cases ha : a ≠ 0
  · simp [PerformResetUngated, ha, resDo_current, hi]
  · have ha0 : a = 0 := by simpa using ha
    subst ha0
    simp [PerformResetUngated, Nat.zero_testBit]

theorem performResetUngated_total (t : CState) (a i : Nat)
    (hi : i < OPTIMAL_RE_COUNT) :
    (PerformResetUngated OPTIMAL_RE_COUNT t a).total i =
      if a.testBit (MAX_RE_COUNT + i) ∧ t.current i ≠ 0 then
        max (t.total i) (t.current i)
      else t.total i := by
  by_cases ha : a ≠ 0
  · simp [PerformResetUngated, ha, resDo_total, hi]
  · have ha0 : a = 0 := by simpa using ha
    subst ha0
    simp [PerformResetUngated, Nat.zero_testBit]

theorem performResetUngated_current_high (t : CState) (a i : Nat)
    (hi : OPTIMAL_RE_COUNT ≤ i) :
    (PerformResetUngated OPTIMAL_RE_COUNT t a).current i = t.current i := by
  have h1 : ¬ i < OPTIMAL_RE_COUNT := by omega
  by_cases ha : a ≠ 0 <;> simp [PerformResetUngated, ha, resDo_current, h1]

theorem performResetUngated_total_high (t : CState) (a i : Nat)
    (hi : OPTIMAL_RE_COUNT ≤ i) :
    (PerformResetUngated OPTIMAL_RE_COUNT t a).total i = t.total i := by
  have h1 : ¬ i < OPTIMAL_RE_COUNT := by omega
  by_cases ha : a ≠ 0 <;> simp [PerformResetUngated, ha, resDo_total, h1]

theorem performResetUngated_updatedMask_testBit (t : CState) (a k : Nat)
    (hk : k < 32) :
    (PerformResetUngated OPTIMAL_RE_COUNT t a).updatedMask.testBit k =
      (t.updatedMask.testBit k && !(a.testBit k)) := by
  by_cases ha : a ≠ 0
  · simp only [PerformResetUngated, ha, if_true, ne_eq, not_false_iff, if_pos,
      resDo_updatedMask]
    rw [Nat.testBit_and, Nat.testBit_xor, Nat.testBit_two_pow_sub_one]
    have : decide (k < 32) = true := by simp [hk]
    rw [this]
    cases ht : t.updatedMask.testBit k <;> cases hb : a.testBit k <;> simp
  · have ha0 : a = 0 := by simpa using ha
    subst ha0
    simp [PerformResetUngated, Nat.zero_testBit]

theorem takeActionUngated_st (s : CState) (a : Nat) :
    (TakeActionUngated s a).st = s.st := by
  rw [takeActionUngated_eq]
  by_cases hr : a &&& ResetMask ≠ 0 <;>
    simp [hr, performResetUngated_st, incPhase_st]

theorem takeActionUngated_current (s : CState) (a i : Nat)
    (hi : i < OPTIMAL_RE_COUNT) :
    (TakeActionUngated s a).current i =
      if a.testBit (MAX_RE_COUNT + i)
          ∧ (if a.testBit i then (s.current i + 1) % 2 ^ 32 else s.current i) ≠ 0
      then 0
      else if a.testBit i then (s.current i + 1) % 2 ^ 32 else s.current i := by
  rw [takeActionUngated_eq]
  by_cases hr : a &&& ResetMask ≠ 0
  · rw [if_pos hr, performResetUngated_current _ _ _ hi, incPhase_current _ _ _ hi]
  · have hb : a.testBit (MAX_RE_COUNT + i) = false :=
      testBit_eq_false_of_ResetMask_eq_zero (opt_lt_max hi) (by simpa using hr)
    rw [if_neg hr, incPhase_current _ _ _ hi]
    simp [hb]

theorem takeActionUngated_total (s : CState) (a i : Nat)
    (hi : i < OPTIMAL_RE_COUNT) :
    (TakeActionUngated s a).total i =
      if a.testBit (MAX_RE_COUNT + i)
          ∧ (if a.testBit i then (s.current i + 1) % 2 ^ 32 else s.current i) ≠ 0
      then max (s.total i)
        (if a.testBit i then (s.current i + 1) % 2 ^ 32 else s.current i)
      else s.total i := by
  rw [takeActionUngated_eq]
  by_cases hr : a &&& ResetMask ≠ 0
  · rw [if_pos hr, performResetUngated_total _ _ _ hi, incPhase_current _ _ _ hi,
      incPhase_total]
  · have hb : a.testBit (MAX_RE_COUNT + i) = false :=
      testBit_eq_false_of_ResetMask_eq_zero (opt_lt_max hi) (by simpa using hr)
    rw [if_neg hr, incPhase_total]
    simp [hb]

theorem takeActionUngated_current_high (s : CState) (a i : Nat)
    (hi : OPTIMAL_RE_COUNT ≤ i) :
    (TakeActionUngated s a).current i = s.current i := by
  rw [takeActionUngated_eq]
  by_cases hr : a &&& ResetMask ≠ 0
  · rw [if_pos hr, performResetUngated_current_high _ _ _ hi,
      incPhase_current_high _ _ _ hi]
  · rw [if_neg hr, incPhase_current_high _ _ _ hi]

theorem takeActionUngated_total_high (s : CState) (a i : Nat)
    (hi : OPTIMAL_RE_COUNT ≤ i) :
    (TakeActionUngated s a).total i = s.total i := by
  rw [takeActionUngated_eq]
  by_cases hr : a &&& ResetMask ≠ 0
  · rw [if_pos hr, performResetUngated_total_high _ _ _ hi, incPhase_total]
  · rw [if_neg hr, incPhase_total]

theorem takeActionUngated_updatedMask_testBit (s : CState) (a k : Nat)
    (hk : k < 32) :
    (TakeActionUngated s a).updatedMask.testBit k =
      ((postIncMask s a).testBit k
        && !(a.testBit k && decide (a &&& ResetMask ≠ 0))) := by
  rw [takeActionUngated_eq]
  by_cases hr : a &&& ResetMask ≠ 0
  · rw [if_pos hr, performResetUngated_updatedMask_testBit _ _ _ hk,
      incPhase_updatedMask]
    simp [hr]
  · rw [if_neg hr, incPhase_updatedMask]
    simp [hr]

/-- Coupling between a gated run and an ungated run: all observables agree and
the low 32 bits of `m_updatedMask` agree. -/
def Couple (g u : CState) : Prop :=
  g.st = u.st ∧ (∀ i, g.current i = u.current i) ∧ (∀ i, g.total i = u.total i)
  ∧ (∀ k, k < 32 → g.updatedMask.testBit k = u.updatedMask.testBit k)

theorem couple_postIncMask (g u : CState) (a : Nat)
    (hum : ∀ k, k < 32 → g.updatedMask.testBit k = u.updatedMask.testBit k)
    (k : Nat) (hk : k < 32) :
    (postIncMask g a).testBit k = (postIncMask u a).testBit k := by
  by_cases hI : a &&& IncrementMask ≠ 0 <;>
    simp [postIncMask, hI, Nat.testBit_or, hum k hk]

theorem couple_step (g u : CState) (a : Nat) (hg : GateSound g) (hc : Couple g u) :
    Couple (TakeAction g a) (TakeActionUngated u a) := by
  obtain ⟨hst, hcur, htot, hum⟩ := hc
  have hcond : ∀ i, i < OPTIMAL_RE_COUNT →
      ((a.testBit (MAX_RE_COUNT + i)
        ∧ (postIncMask g a).testBit (MAX_RE_COUNT + i)
        ∧ (if a.testBit i then (g.current i + 1) % 2 ^ 32 else g.current i) ≠ 0)
      ↔ (a.testBit (MAX_RE_COUNT + i)
        ∧ (if a.testBit i then (u.current i + 1) % 2 ^ 32 else u.current i) ≠ 0)) := by
    intro i hi
    rw [← hcur i]
    constructor
    · rintro ⟨h1, _, h3⟩
      exact ⟨h1, h3⟩
    · rintro ⟨h1, h3⟩
      refine ⟨h1, ?_, h3⟩
      rw [postIncMask_testBit _ _ _ (opt_lt_max hi)]
      by_cases hx : a.testBit i = true
      · simp [hx]
      · have hx0 : a.testBit i = false := by simpa using hx
        rw [hx0, if_neg (by simp)] at h3
        simp [hg i hi h3]
  refine ⟨?_, ?_, ?_, ?_⟩
  · rw [takeAction_st, takeActionUngated_st, hst]
  · intro i
    by_cases hi : i < OPTIMAL_RE_COUNT
    · rw [takeAction_current _ _ _ hi, takeActionUngated_current _ _ _ hi]
      by_cases hif : a.testBit (MAX_RE_COUNT + i)
          ∧ (if a.testBit i then (u.current i + 1) % 2 ^ 32 else u.current i) ≠ 0
      · rw [if_pos ((hcond i hi).mpr hif), if_pos hif]
      · rw [if_neg (fun hcon => hif ((hcond i hi).mp hcon)), if_neg hif, hcur i]
    · rw [takeAction_current_high _ _ _ (by omega),
        takeActionUngated_current_high _ _ _ (by omega), hcur i]
  · intro i
    by_cases hi : i < OPTIMAL_RE_COUNT
    · rw [takeAction_total _ _ _ hi, takeActionUngated_total _ _ _ hi]
      by_cases hif : a.testBit (MAX_RE_COUNT + i)
          ∧ (if a.testBit i then (u.current i + 1) % 2 ^ 32 else u.current i) ≠ 0
      · rw [if_pos ((hcond i hi).mpr hif), if_pos hif, htot i, hcur i]
      · rw [if_neg (fun hcon => hif ((hcond i hi).mp hcon)), if_neg hif, htot i]
    · rw [takeAction_total_high _ _ _ (by omega),
        takeActionUngated_total_high _ _ _ (by omega), htot i]
  · intro k hk
    rw [takeAction_updatedMask_testBit _ _ _ hk,
      takeActionUngated_updatedMask_testBit _ _ _ hk,
      couple_postIncMask g u a hum k hk]

theorem couple_applyActions (l : List Nat) : ∀ g u : CState,
    GateSound g → Couple g u →
    Couple (applyActions g l) (applyActionsUngated u l) := by
  induction l with
  | nil =>
    intro g u _ hc
    exact hc
  | cons a l ih =>
    intro g u hg hc
    exact ih (TakeAction g a) (TakeActionUngated u a) (gateSound_step g a hg)
      (couple_step g u a hg hc)

/-- C1 counterexample: the action word `2^4` has bit 4 set and `4 < MAX_RE_COUNT`,
yet `TakeAction` (which hard-codes the unroll depth `OPTIMAL_RE_COUNT = 4`)
leaves `current[4]` at 0 instead of incrementing it by one. -/
theorem c1_counterexample :
    ((2 ^ 4 : Nat).testBit 4 = true) ∧ 4 < MAX_RE_COUNT
    ∧ ¬ ((TakeAction (Initialize 0) (2 ^ 4)).current 4 =
        (Initialize 0).current 4 + 1) := by
  refine ⟨by decide, by decide, by decide⟩

/-- C1 (amended): for every tracked pattern index `i < OPTIMAL_RE_COUNT` (the
unroll depth `TakeAction` hard-codes, not `MAX_RE_COUNT`), if bit `i` of the
action is set and the matching reset bit `MAX_RE_COUNT + i` is not, then
`current[i]` is incremented by exactly one (as a `ui32`, i.e. modulo `2^32`),
with no gating; and the interpretation of the action word is positional: a
pattern `j` with both bits clear keeps its counter. -/
theorem c1_increment_by_bit_position (s : CState) (a i : Nat)
    (hi : i < OPTIMAL_RE_COUNT) (hb : a.testBit i = true)
    (hnr : a.testBit (MAX_RE_COUNT + i) = false) :
    (TakeAction s a).current i = (s.current i + 1) % 2 ^ 32
    ∧ (∀ j, j < OPTIMAL_RE_COUNT → a.testBit j = false →
        a.testBit (MAX_RE_COUNT + j) = false →
        (TakeAction s a).current j = s.current j) := by
  constructor
  · rw [takeAction_current _ _ _ hi, hb, hnr]
    simp
  · intro j hj hbj hnrj
    rw [takeAction_current _ _ _ hj, hbj, hnrj]
    simp

/-- Witness for the amended C1 at a concrete input. -/
theorem c1_increment_by_bit_position_witness :
    (0 : Nat) < OPTIMAL_RE_COUNT ∧ (1 : Nat).testBit 0 = true
    ∧ (1 : Nat).testBit (MAX_RE_COUNT + 0) = false
    ∧ (TakeAction (Initialize 0) 1).current 0 =
        ((Initialize 0).current 0 + 1) % 2 ^ 32 :=
  ⟨by decide, by decide, by decide,
    (c1_increment_by_bit_position (Initialize 0) 1 0 (by decide) (by decide)
      (by decide)).1⟩

/-- C2 counterexample: the action `2^16 + 2` has Reset(0) set and Reset(1)
clear, yet applying it changes `current[1]` (from 1 to 2), because its
Increment(1) bit also fires; the claim's frame clause for `current[j]` is
false as stated. -/
theorem c2_counterexample :
    ((2 ^ 16 + 2 : Nat).testBit (MAX_RE_COUNT + 0) = true)
    ∧ ((2 ^ 16 + 2 : Nat).testBit (MAX_RE_COUNT + 1) = false)
    ∧ (TakeAction (Initialize 0) 2).current 1 = 1
    ∧ (TakeAction (TakeAction (Initialize 0) 2) (2 ^ 16 + 2)).current 1 = 2 := by
  refine ⟨by decide, by decide, by decide, by decide⟩

/-- C2 (amended): on every runtime state (one produced by `Initialize`
followed by `TakeAction` steps), an action with Reset(i) set and Increment(i)
clear commits `total[i] := max(total[i], current[i])` and zeroes `current[i]`;
`total[j]` is unchanged for every `j` with Reset(j) clear, and `current[j]` is
unchanged for every `j` with both Reset(j) and Increment(j) clear. -/
theorem c2_reset_commit (st0 : Nat) (l : List Nat) (a i : Nat)
    (hi : i < MAX_RE_COUNT)
    (hr : a.testBit (MAX_RE_COUNT + i) = true)
    (hni : a.testBit i = false) :
    ((TakeAction (applyActions (Initialize st0) l) a).total i =
        max ((applyActions (Initialize st0) l).total i)
          ((applyActions (Initialize st0) l).current i)
      ∧ (TakeAction (applyActions (Initialize st0) l) a).current i = 0)
    ∧ (∀ j, j < MAX_RE_COUNT → a.testBit (MAX_RE_COUNT + j) = false →
        (TakeAction (applyActions (Initialize st0) l) a).total j =
          (applyActions (Initialize st0) l).total j
        ∧ (a.testBit j = false →
            (TakeAction (applyActions (Initialize st0) l) a).current j =
              (applyActions (Initialize st0) l).current j)) := by
  have hgs : GateSound (applyActions (Initialize st0) l) :=
    gateSound_applyActions l _ (gateSound_init st0)
  have hhz : HighZero (applyActions (Initialize st0) l) :=
    highZero_applyActions l _ (highZero_init st0)
  set s := applyActions (Initialize st0) l with hs
  constructor
  · by_cases hi4 : i < OPTIMAL_RE_COUNT
    · rw [takeAction_total _ _ _ hi4, takeAction_current _ _ _ hi4,
        postIncMask_testBit _ _ _ hi, hr, hni]
      by_cases hc0 : s.current i = 0
      · rw [hc0]
        simp
      · have hu := hgs i hi4 hc0
        rw [hu]
        simp [hc0]
    · have hge : OPTIMAL_RE_COUNT ≤ i := by omega
      have hc0 := hhz i hge
      rw [takeAction_total_high _ _ _ hge, takeAction_current_high _ _ _ hge, hc0]
      simp
  · intro j hj hrj
    by_cases hj4 : j < OPTIMAL_RE_COUNT
    · constructor
      · rw [takeAction_total _ _ _ hj4, hrj]
        simp
      · intro hbj
        rw [takeAction_current _ _ _ hj4, hrj, hbj]
        simp
    · have hge : OPTIMAL_RE_COUNT ≤ j := by omega
      exact ⟨takeAction_total_high _ _ _ hge,
        fun _ => takeAction_current_high _ _ _ hge⟩

/-- Witness for the amended C2 at a concrete input. -/
theorem c2_reset_commit_witness :
    (0 : Nat) < MAX_RE_COUNT ∧ ((2 ^ 16 : Nat)).testBit (MAX_RE_COUNT + 0) = true
    ∧ ((2 ^ 16 : Nat)).testBit 0 = false
    ∧ ((TakeAction (applyActions (Initialize 0) [1]) (2 ^ 16)).total 0 =
        max ((applyActions (Initialize 0) [1]).total 0)
          ((applyActions (Initialize 0) [1]).current 0)
      ∧ (TakeAction (applyActions (Initialize 0) [1]) (2 ^ 16)).current 0 = 0) :=
  ⟨by decide, by decide, by decide,
    (c2_reset_commit 0 [1] (2 ^ 16) 0 (by decide) (by decide) (by decide)).1⟩

/-- C3: `State::Result(i)` returns `max(current[i], total[i])`, so an
in-progress (uncommitted) trailing run is included in the reported count:
the result is never below `current[i]` (nor below `total[i]`). -/
theorem c3_result_is_max (s : CState) (i : Nat) :
    Result s i = max (s.current i) (s.total i)
    ∧ s.current i ≤ Result s i ∧ s.total i ≤ Result s i :=
  ⟨rfl, Nat.le_max_left _ _, Nat.le_max_right _ _⟩

/-- C4: `RemapAction` maps the accept tag `Matched|DeadFlag` to the action
word 1 — the Increment bit of the single pattern tracked at construction time
(pattern 0), all other increment bits clear — maps `DeadFlag` alone to
`1 << MAX_RE_COUNT`, that pattern's Reset bit, and maps every other tag to
the zero action word. -/
theorem c4_remap_action (t : Nat) :
    RemapAction (Matched ||| DeadFlag) = 1
    ∧ (RemapAction (Matched ||| DeadFlag)).testBit 0 = true
    ∧ (∀ j, 1 ≤ j → (RemapAction (Matched ||| DeadFlag)).testBit j = false)
    ∧ RemapAction DeadFlag = 1 <<< MAX_RE_COUNT
    ∧ (RemapAction DeadFlag).testBit (MAX_RE_COUNT + 0) = true
    ∧ (t ≠ (Matched ||| DeadFlag) → t ≠ DeadFlag → RemapAction t = 0) := by
  refine ⟨by decide, by decide, ?_, by decide, by decide, ?_⟩
  · intro j hj
    have h1 : RemapAction (Matched ||| DeadFlag) = 1 := by decide
    rw [h1]
    exact Nat.testBit_lt_two_pow (Nat.one_lt_two_pow_iff.mpr (by omega))
  · intro h1 h2
    simp [RemapAction, h1, h2]

/-- Witness for C4 at concrete inputs. -/
theorem c4_remap_action_witness :
    ((1 : Nat) ≤ 5 ∧ (RemapAction (Matched ||| DeadFlag)).testBit 5 = false)
    ∧ ((0 : Nat) ≠ (Matched ||| DeadFlag) ∧ (0 : Nat) ≠ DeadFlag
      ∧ RemapAction 0 = 0) :=
  ⟨⟨by decide, (c4_remap_action 0).2.2.1 5 (by decide)⟩,
   ⟨by decide, by decide,
     (c4_remap_action 0).2.2.2.2.2 (by decide) (by decide)⟩⟩

/-- C5 counterexample: one `TakeAction` step from `Initialize` with the
action `2^4` sets the reset-gate bit consulted for pattern 4
(`updatedMask` bit `MAX_RE_COUNT + 4`), while `current[4]` stays 0 — the
claimed iff fails for tracked indices at or above `OPTIMAL_RE_COUNT`. -/
theorem c5_counterexample :
    4 < MAX_RE_COUNT
    ∧ (TakeAction (Initialize 0) (2 ^ 4)).updatedMask.testBit
        (MAX_RE_COUNT + 4) = true
    ∧ (TakeAction (Initialize 0) (2 ^ 4)).current 4 = 0 := by
  refine ⟨by decide, by decide, by decide⟩

/-- C5 (amended): restricted to the unrolled pattern range
`i < OPTIMAL_RE_COUNT` and to steps in which no counter is about to overflow
its `ui32` (each `current[i] < 2^32 - 1`), the invariant — gate bit
`MAX_RE_COUNT + i` of `updatedMask` set iff `current[i] > 0` — holds after
`Initialize` and is preserved by every `TakeAction` step. -/
theorem c5_updated_mask_invariant (st0 : Nat) (s : CState) (a : Nat)
    (h : MaskInv s) (hw : NoWrap s) :
    MaskInv (Initialize st0) ∧ MaskInv (TakeAction s a) :=
  ⟨maskInv_init st0, maskInv_step s a h hw⟩

/-- Witness for the amended C5 at a concrete input. -/
theorem c5_updated_mask_invariant_witness :
    MaskInv (Initialize 0) ∧ NoWrap (Initialize 0)
    ∧ (MaskInv (Initialize 1) ∧ MaskInv (TakeAction (Initialize 0) 1)) :=
  ⟨by decide, by decide,
    c5_updated_mask_invariant 1 (Initialize 0) 1 (by decide) (by decide)⟩

/-- C6: gating resets by `updatedMask` is observably pure optimization — for
every action sequence from `Initialize`, the gated implementation and the
ungated variant produce identical `current[]`, `total[]` and `Result(i)`. -/
theorem c6_reset_gate_pure_optimization (st0 : Nat) (l : List Nat) (i : Nat) :
    (applyActions (Initialize st0) l).current i
      = (applyActionsUngated (Initialize st0) l).current i
    ∧ (applyActions (Initialize st0) l).total i
      = (applyActionsUngated (Initialize st0) l).total i
    ∧ Result (applyActions (Initialize st0) l) i
      = Result (applyActionsUngated (Initialize st0) l) i := by
  have hc := couple_applyActions l (Initialize st0) (Initialize st0)
    (gateSound_init st0) ⟨rfl, fun _ => rfl, fun _ => rfl, fun _ _ => rfl⟩
  obtain ⟨_, hcur, htot, _⟩ := hc
  refine ⟨hcur i, htot i, ?_⟩
  rw [Result, Result, hcur i, htot i]

/-- C7 counterexample: after `2^32 - 1` increment actions from `Initialize`,
`Result(0)` is `2^32 - 1`; one more increment wraps the `ui32` counter and
`Result(0)` drops to 0 — appending an action decreased `Result`. -/
theorem c7_counterexample :
    Result (TakeAction
        (applyActions (Initialize 0) (List.replicate (2 ^ 32 - 1) 1)) 1) 0
      < Result (applyActions (Initialize 0) (List.replicate (2 ^ 32 - 1) 1)) 0 := by
  have h0c : (Initialize 0).current 0 = 0 := rfl
  have h0t : (Initialize 0).total 0 = 0 := rfl
  obtain ⟨hc, ht⟩ := applyActions_replicate_one (2 ^ 32 - 1) (Initialize 0)
    (by rw [h0c]; omega)
  rw [h0c] at hc
  rw [h0t] at ht
  have hstep := takeAction_one_current
    (applyActions (Initialize 0) (List.replicate (2 ^ 32 - 1) 1))
  rw [Result, Result, hstep.1, hstep.2, hc, ht]
  omega

/-- C7 (amended): `Result(i)` is non-decreasing under any further
`TakeAction` step provided `current[i]` has not reached its `ui32` ceiling
(`current[i] < 2^32 - 1`), and is unchanged by any `Next` step (which never
touches the counters). -/
theorem c7_result_monotone (s : CState) (a i : Nat)
    (hw : s.current i < 2 ^ 32 - 1) :
    Result s i ≤ Result (TakeAction s a) i
    ∧ ∀ (T : Nat → Nat → Transition) (letters : Nat → Nat) (c : Nat),
        Result (Next T letters s c).1 i = Result s i :=
  ⟨result_mono_step s a i hw, fun T letters c => result_next_eq T letters s c i⟩

/-- Witness for the amended C7 at a concrete input. -/
theorem c7_result_monotone_witness :
    (Initialize 0).current 0 < 2 ^ 32 - 1
    ∧ Result (Initialize 0) 0 ≤ Result (TakeAction (Initialize 0) 1) 0 :=
  ⟨by decide, (c7_result_monotone (Initialize 0) 1 0 (by decide)).1⟩

/-- C8: `Final`, `Dead` and `CanStop` of a counting scanner return `false`
on every runtime state — the scanner never signals acceptance or early
termination through them. -/
theorem c8_final_dead_canstop_false (s : CState) :
    Final s = false ∧ Dead s = false ∧ CanStop s = false :=
  ⟨rfl, rfl, rfl⟩

/-- C9: when the glue product exceeds `maxSize` (nonzero), `Glue` returns the
sentinel-empty scanner — the caller's `Empty()` test is true — and, being a
total function, raises no exception; the fallback decision is the caller's. -/
theorem c9_glue_overrun_returns_sentinel (a b : GScanner) (m : Nat)
    (hm : m ≠ 0) (hover : m < glueProductStates a b) :
    (Glue a b m).Empty = true := by
  rw [Glue, if_pos ⟨hm, hover⟩]
  rfl

/-- Witness for C9 at a concrete input. -/
theorem c9_glue_overrun_returns_sentinel_witness :
    (5 : Nat) ≠ 0 ∧ 5 < glueProductStates ⟨2⟩ ⟨3⟩
    ∧ (Glue ⟨2⟩ ⟨3⟩ 5).Empty = true :=
  ⟨by decide, by decide,
    c9_glue_overrun_returns_sentinel ⟨2⟩ ⟨3⟩ 5 (by decide) (by decide)⟩

/-- C10: the DFA position and the counters are updated by disjoint
operations — `Next` changes only `m_state`, leaving `current[]`, `total[]`
and `updatedMask` untouched; `TakeAction` leaves `m_state` untouched; and the
three-argument `Next` operates on a copy, leaving its first argument (a value
in this embedding) unchanged and agreeing with the two-argument `Next`. -/
theorem c10_frame_separation (T : Nat → Nat → Transition) (letters : Nat → Nat)
    (s : CState) (c a : Nat) :
    ((Next T letters s c).1.current = s.current
      ∧ (Next T letters s c).1.total = s.total
      ∧ (Next T letters s c).1.updatedMask = s.updatedMask)
    ∧ (TakeAction s a).st = s.st
    ∧ NextCopy T letters s c = Next T letters s c :=
  ⟨⟨rfl, rfl, rfl⟩, takeAction_st s a, rfl⟩
